import Mathlib

/-!
Verification of the eql utility module (eql/utils.py).

The development shallowly embeds the two core components of the module:

* the type-inference normalizer get_type_converter (utils.py lines 54-98),
  modelled over a small universe of Python values (PyVal / Scalar) that
  covers the scalar types and flat tuples the normalizer is used with.
  Python exceptions raised while building or applying a converter
  (IndexError on empty_values i, TypeError on iterating a non-iterable)
  are modelled as Option.none results;

* the streaming decode pipeline stream_json_lines / stream_events /
  stream_file_events / stream_stdin_events (utils.py lines 141-206).
  The Python json module is an external collaborator, so json.loads and
  json.load are parameters (loads, loadDoc) of the embedded functions;
  a file object is modelled by its list of text lines.  A generator is
  modelled eagerly as the list of values it yields paired with the
  exception, if any, that terminates it.
-/

/-- Scalar Python values that can occur inside a field tuple:
None, int, str and bool. -/
inductive Scalar where
  | snone
  | sint (n : Int)
  | sstr (s : String)
  | sbool (b : Bool)
deriving DecidableEq

/-- Python values handed to the normalizer: scalars, or flat tuples and
lists of scalars (the shapes get_type_converter is used with). -/
inductive PyVal where
  | none
  | int (n : Int)
  | str (s : String)
  | bool (b : Bool)
  | tuple (xs : List Scalar)
  | list (xs : List Scalar)
deriving DecidableEq

/-- Python truthiness of a scalar: None, 0, the empty string and False
are falsy. -/
def Scalar.truthy : Scalar → Bool
  | .snone => false
  | .sint n => decide (n ≠ 0)
  | .sstr s => decide (s ≠ "")
  | .sbool b => b

/-- Python truthiness of a value: None, 0, the empty string, False and
empty containers are falsy. -/
def PyVal.truthy : PyVal → Bool
  | .none => false
  | .int n => decide (n ≠ 0)
  | .str s => decide (s ≠ "")
  | .bool b => b
  | .tuple xs => decide (xs ≠ [])
  | .list xs => decide (xs ≠ [])

/-- type(v)() for a scalar: the default-constructed value of the type of v.
In Python type(None)() is again None. -/
def Scalar.zero : Scalar → Scalar
  | .snone => .snone
  | .sint _ => .sint 0
  | .sstr _ => .sstr ""
  | .sbool _ => .sbool false

/-- type(v)() for a value: the default-constructed value of the type of v. -/
def PyVal.zero : PyVal → PyVal
  | .none => .none
  | .int _ => .int 0
  | .str _ => .str ""
  | .bool _ => .bool false
  | .tuple _ => .tuple []
  | .list _ => .list []

/-- get_empty (utils.py lines 58-60) applied to a tuple entry:
None if v is None else type(v)(). -/
def Scalar.getEmpty (v : Scalar) : Scalar :=
  if v = Scalar.snone then Scalar.snone else Scalar.zero v

/-- get_empty (utils.py lines 58-60): None if v is None else type(v)(). -/
def PyVal.getEmpty (v : PyVal) : PyVal :=
  if v = PyVal.none then PyVal.none else PyVal.zero v

/-- The Python expression x or e: x when x is truthy, e otherwise
(utils.py line 80). -/
def pyOr (x e : PyVal) : PyVal :=
  if PyVal.truthy x then x else e

/-- The Python expression x or e on tuple entries (utils.py line 96). -/
def pyOrS (x e : Scalar) : Scalar :=
  if Scalar.truthy x then x else e

/-- Python iteration over a value, as used by the inner for-loop of
get_type_converter (line 86): tuples and lists yield their entries,
a string yields its characters as one-character strings, and iterating
anything else raises TypeError (modelled as Option.none). -/
def tupleElems : PyVal → Option (List Scalar)
  | .tuple xs => some xs
  | .list xs => some xs
  | .str s => some (s.toList.map (fun c => Scalar.sstr (String.mk [c])))
  | _ => Option.none

/-- Python indexing v[i], as used by convert_types (utils.py line 96):
out-of-range indices and non-indexable values raise (Option.none). -/
def pyIndex : PyVal → Nat → Option Scalar
  | .tuple xs, i => xs[i]?
  | .list xs, i => xs[i]?
  | .str s, i => (s.toList[i]?).map (fun c => Scalar.sstr (String.mk [c]))
  | _, _ => Option.none

/-- The scalar-mode seeding of the empty value (utils.py lines 72-78):
empty = get_empty(first); if that is None, scan the remaining items for
the first non-None item and take its get_empty. -/
def scalarEmpty (first : PyVal) (rest : List PyVal) : PyVal :=
  let e := PyVal.getEmpty first
  if e = PyVal.none then
    match rest.find? (fun v => decide (v ≠ PyVal.none)) with
    | some item => PyVal.getEmpty item
    | Option.none => PyVal.none
  else e

/-- The inner for-loop of the tuple mode (utils.py lines 86-89):
for i, item in enumerate(item_tuple): if item is not None and
empty_values[i] is None: empty_values[i] = type(item)().  The index i
starts at the accumulator argument; accessing empty_values out of range
raises IndexError (Option.none).  The access only happens when the item
is not None, mirroring the short-circuit of the Python condition. -/
def updateEV : List Scalar → Nat → List Scalar → Option (List Scalar)
  | ev, _, [] => some ev
  | ev, i, item :: rest =>
    if item = Scalar.snone then updateEV ev (i + 1) rest
    else
      match ev[i]? with
      | Option.none => Option.none
      | some e =>
          updateEV (if e = Scalar.snone then ev.set i (Scalar.zero item) else ev) (i + 1) rest

/-- The outer for-loop of the tuple mode (utils.py lines 85-92): fold the
remaining items into the empty-value vector, breaking as soon as every
slot is non-None; exceptions (TypeError on a non-iterable item,
IndexError from the inner loop) abort the build. -/
def buildEV : List Scalar → List PyVal → Option (List Scalar)
  | ev, [] => some ev
  | ev, t :: rest =>
    match tupleElems t with
    | Option.none => Option.none
    | some elems =>
      match updateEV ev 0 elems with
      | Option.none => Option.none
      | some ev2 =>
          if ev2.all (fun v => decide (v ≠ Scalar.snone)) then some ev2
          else buildEV ev2 rest

/-- The generator for the i-th output entry of convert_types
(utils.py line 96): tup[i] or empty_i for each remaining empty value,
with the index starting at the accumulator argument; tup[i] raises on
out-of-range access (Option.none). -/
def convertEntries (tup : PyVal) : Nat → List Scalar → Option (List Scalar)
  | _, [] => some []
  | i, e :: es =>
    match pyIndex tup i with
    | Option.none => Option.none
    | some x => (convertEntries tup (i + 1) es).map (fun l => pyOrS x e :: l)

/-- The three shapes of callback get_type_converter can return:
default_converter (lines 62-64), the scalar-mode lambda (line 80), and
convert_types with its captured empty-value vector (lines 94-96). -/
inductive Conv where
  | dflt
  | scalar (empty : PyVal)
  | tuples (empty_values : List Scalar)
deriving DecidableEq

/-- Applying a returned callback to one value.  default_converter maps
everything to None; the scalar lambda is x or empty; convert_types
rebuilds the tuple entrywise and can raise on short inputs. -/
def applyConv : Conv → PyVal → Option PyVal
  | .dflt, _ => some PyVal.none
  | .scalar e, x => some (pyOr x e)
  | .tuples ev, t => (convertEntries t 0 ev).map PyVal.tuple

/-- get_type_converter (utils.py lines 54-98).  An empty sequence gives
default_converter; a first element that is a tuple or list selects the
tuple mode (whose build can raise, hence Option); anything else selects
the scalar mode. -/
def get_type_converter : List PyVal → Option Conv
  | [] => some Conv.dflt
  | PyVal.tuple fs :: rest => (buildEV (fs.map Scalar.getEmpty) rest).map Conv.tuples
  | PyVal.list fs :: rest => (buildEV (fs.map Scalar.getEmpty) rest).map Conv.tuples
  | first :: rest => some (Conv.scalar (scalarEmpty first rest))


/-- isinstance(first, (tuple, list)) (utils.py line 71). -/
def PyVal.isTupleOrList : PyVal → Bool
  | .tuple _ => true
  | .list _ => true
  | _ => false

theorem Scalar.zero_ne_snone {v : Scalar} (h : v ≠ Scalar.snone) :
    Scalar.zero v ≠ Scalar.snone := by
  cases v <;> simp [Scalar.zero] at h ⊢

theorem PyVal.zero_ne_none {v : PyVal} (h : v ≠ PyVal.none) :
    PyVal.zero v ≠ PyVal.none := by
  cases v <;> simp [PyVal.zero] at h ⊢

theorem PyVal.truthy_ne_none {x : PyVal} (h : PyVal.truthy x = true) :
    x ≠ PyVal.none := by
  cases x <;> simp [PyVal.truthy] at h ⊢

theorem gtc_scalar_mode (first : PyVal) (rest : List PyVal)
    (h : PyVal.isTupleOrList first = false) :
    get_type_converter (first :: rest) = some (Conv.scalar (scalarEmpty first rest)) := by
  cases first <;> simp_all [get_type_converter, PyVal.isTupleOrList]

theorem scalarEmpty_eq_zero (first : PyVal) (rest : List PyVal) (w : PyVal)
    (hw : (first :: rest).find? (fun v => decide (v ≠ PyVal.none)) = some w) :
    scalarEmpty first rest = PyVal.zero w := by
  by_cases hf : first = PyVal.none
  · subst hf
    have hw2 : rest.find? (fun v => decide (v ≠ PyVal.none)) = some w := by
      simpa using hw
    have hwne : w ≠ PyVal.none := by
      simpa using List.find?_some hw2
    simp only [scalarEmpty, PyVal.getEmpty, if_pos rfl]
    rw [hw2]
    simp [hwne]
  · have hp : (fun v => decide (v ≠ PyVal.none)) first = true := by simpa using hf
    simp only [List.find?, hp] at hw
    have hw' : w = first := by
      cases hw; rfl
    subst hw'
    simp [scalarEmpty, PyVal.getEmpty, hf, PyVal.zero_ne_none hf]

theorem convertEntries_zip (ev tup : List Scalar) :
    ∀ j : Nat, j + ev.length ≤ tup.length →
      convertEntries (PyVal.tuple tup) j ev =
        some (List.zipWith pyOrS (tup.drop j) ev) := by
  induction ev with
  | nil => intro j _; simp [convertEntries]
  | cons e es ih =>
      intro j hj
      have hjlt : j < tup.length := by simp at hj; omega
      have hrec := ih (j + 1) (by simp at hj ⊢; omega)
      simp only [convertEntries, pyIndex, List.getElem?_eq_getElem hjlt, hrec]
      rw [List.drop_eq_getElem_cons hjlt, List.zipWith_cons_cons]
      rfl

/-- Claim C1, counterexample.  The claim says every non-null input element
is returned unchanged, but substitution is by truthiness: in the scalar
sequence "x", 0 the empty value is the zero of str (the first-seen
non-null type), and the non-null but falsy element 0 is mapped to the
empty string instead of to itself. -/
theorem scalar_nonnull_identity_cex :
    get_type_converter [PyVal.str "x", PyVal.int 0] =
      some (Conv.scalar (PyVal.str "")) ∧
    applyConv (Conv.scalar (PyVal.str "")) (PyVal.int 0) = some (PyVal.str "") ∧
    PyVal.int 0 ≠ PyVal.none ∧
    PyVal.str "" ≠ PyVal.int 0 := by
  refine ⟨by decide, by decide, by decide, by decide⟩

/-- Claim C1, amended: for every scalar sequence containing at least one
non-null value (witnessed by the first non-None element w found in it),
get_type_converter returns the scalar-mode transform whose empty value is
the zero-value of w; applied to each element of the sequence the
transform yields no null values, returns the element itself when it is
truthy, and the zero-value of the first-seen non-null type when the
element is falsy (null included). -/
theorem scalar_normalize (first : PyVal) (rest : List PyVal) (w : PyVal)
    (hs : ∀ v ∈ first :: rest, PyVal.isTupleOrList v = false)
    (hw : (first :: rest).find? (fun v => decide (v ≠ PyVal.none)) = some w) :
    get_type_converter (first :: rest) = some (Conv.scalar (PyVal.zero w)) ∧
    PyVal.zero w ≠ PyVal.none ∧
    ∀ x ∈ first :: rest,
      applyConv (Conv.scalar (PyVal.zero w)) x =
        some (if PyVal.truthy x then x else PyVal.zero w) ∧
      (if PyVal.truthy x then x else PyVal.zero w) ≠ PyVal.none := by
  have hwne : w ≠ PyVal.none := by
    simpa using List.find?_some hw
  have hzw : PyVal.zero w ≠ PyVal.none := PyVal.zero_ne_none hwne
  refine ⟨?_, hzw, ?_⟩
  · rw [gtc_scalar_mode first rest (hs first (by simp)),
      scalarEmpty_eq_zero first rest w hw]
  · intro x _
    refine ⟨by simp [applyConv, pyOr], ?_⟩
    by_cases ht : PyVal.truthy x
    · simpa [ht] using PyVal.truthy_ne_none ht
    · simp [ht, hzw]

/-- Claim C1 witness: the amended theorem applied to the concrete scalar
sequence None, 5. -/
theorem scalar_normalize_witness :
    (∀ v ∈ [PyVal.none, PyVal.int 5], PyVal.isTupleOrList v = false) ∧
    ([PyVal.none, PyVal.int 5].find? (fun v => decide (v ≠ PyVal.none)) =
      some (PyVal.int 5)) ∧
    (get_type_converter [PyVal.none, PyVal.int 5] =
      some (Conv.scalar (PyVal.zero (PyVal.int 5))) ∧
    PyVal.zero (PyVal.int 5) ≠ PyVal.none ∧
    ∀ x ∈ [PyVal.none, PyVal.int 5],
      applyConv (Conv.scalar (PyVal.zero (PyVal.int 5))) x =
        some (if PyVal.truthy x then x else PyVal.zero (PyVal.int 5)) ∧
      (if PyVal.truthy x then x else PyVal.zero (PyVal.int 5)) ≠ PyVal.none) :=
  ⟨by decide, by decide,
    scalar_normalize PyVal.none [PyVal.int 5] (PyVal.int 5) (by decide) (by decide)⟩

/-- Claim C2, counterexample.  On the projected tuples (1, None),
(None, "x"), (3, None) the built transform substitutes the zero-value of
str (the empty string), not the observed value "x": the first tuple maps
to (1, "") and not to (1, "x") as the claim states. -/
theorem concrete_scenario_cex :
    get_type_converter
        [PyVal.tuple [Scalar.sint 1, Scalar.snone],
         PyVal.tuple [Scalar.snone, Scalar.sstr "x"],
         PyVal.tuple [Scalar.sint 3, Scalar.snone]] =
      some (Conv.tuples [Scalar.sint 0, Scalar.sstr ""]) ∧
    applyConv (Conv.tuples [Scalar.sint 0, Scalar.sstr ""])
        (PyVal.tuple [Scalar.sint 1, Scalar.snone]) =
      some (PyVal.tuple [Scalar.sint 1, Scalar.sstr ""]) ∧
    PyVal.tuple [Scalar.sint 1, Scalar.sstr ""] ≠
      PyVal.tuple [Scalar.sint 1, Scalar.sstr "x"] := by
  refine ⟨by decide, by decide, by decide⟩

/-- Claim C2, amended: the transform built from the tuples (1, None),
(None, "x"), (3, None) maps them, in order, to (1, ""), (0, "x") and
(3, "") - null entries are replaced by the zero-value of the first-seen
non-null type at their position (0 for ints, the empty string for strs),
never by an observed value. -/
theorem concrete_scenario :
    get_type_converter
        [PyVal.tuple [Scalar.sint 1, Scalar.snone],
         PyVal.tuple [Scalar.snone, Scalar.sstr "x"],
         PyVal.tuple [Scalar.sint 3, Scalar.snone]] =
      some (Conv.tuples [Scalar.sint 0, Scalar.sstr ""]) ∧
    applyConv (Conv.tuples [Scalar.sint 0, Scalar.sstr ""])
        (PyVal.tuple [Scalar.sint 1, Scalar.snone]) =
      some (PyVal.tuple [Scalar.sint 1, Scalar.sstr ""]) ∧
    applyConv (Conv.tuples [Scalar.sint 0, Scalar.sstr ""])
        (PyVal.tuple [Scalar.snone, Scalar.sstr "x"]) =
      some (PyVal.tuple [Scalar.sint 0, Scalar.sstr "x"]) ∧
    applyConv (Conv.tuples [Scalar.sint 0, Scalar.sstr ""])
        (PyVal.tuple [Scalar.sint 3, Scalar.snone]) =
      some (PyVal.tuple [Scalar.sint 3, Scalar.sstr ""]) := by
  refine ⟨by decide, by decide, by decide, by decide⟩

/-- Claim C3: substitution in the transforms returned by
get_type_converter is governed by truthiness, not by a strict null check.
A scalar-mode transform maps x to x exactly when x is truthy and to the
established empty value otherwise (so None, 0, the empty string, False
and empty containers are all replaced); a tuple-mode transform does the
same independently at every position. -/
theorem truthiness_substitution (items : List PyVal) (c : Conv)
    (h : get_type_converter items = some c) :
    (∀ e, c = Conv.scalar e → ∀ x,
      applyConv c x = some (if PyVal.truthy x then x else e)) ∧
    (∀ ev, c = Conv.tuples ev → ∀ tup : List Scalar, ev.length ≤ tup.length →
      applyConv c (PyVal.tuple tup) =
        some (PyVal.tuple
          (List.zipWith (fun x e => if Scalar.truthy x then x else e) tup ev))) := by
  refine ⟨?_, ?_⟩
  · rintro e rfl x
    simp [applyConv, pyOr]
  · rintro ev rfl tup hlen
    have hz := convertEntries_zip ev tup 0 (by simpa using hlen)
    simp only [applyConv, hz, List.drop_zero, Option.map_some']
    rfl

/-- Claim C3 witness: the theorem applied to the scalar sequence
consisting of the single element 1, at the falsy input 0 and the truthy
input 7, and to the tuple sequence with one pair (1, "a") at the pair
(None, "b"). -/
theorem truthiness_substitution_witness :
    (get_type_converter [PyVal.int 1] = some (Conv.scalar (PyVal.int 0)) ∧
      applyConv (Conv.scalar (PyVal.int 0)) (PyVal.int 0) =
        some (if PyVal.truthy (PyVal.int 0) then PyVal.int 0 else PyVal.int 0) ∧
      applyConv (Conv.scalar (PyVal.int 0)) (PyVal.int 7) =
        some (if PyVal.truthy (PyVal.int 7) then PyVal.int 7 else PyVal.int 0)) ∧
    (get_type_converter [PyVal.tuple [Scalar.sint 1, Scalar.sstr "a"]] =
        some (Conv.tuples [Scalar.sint 0, Scalar.sstr ""]) ∧
      applyConv (Conv.tuples [Scalar.sint 0, Scalar.sstr ""])
          (PyVal.tuple [Scalar.snone, Scalar.sstr "b"]) =
        some (PyVal.tuple
          (List.zipWith (fun x e => if Scalar.truthy x then x else e)
            [Scalar.snone, Scalar.sstr "b"] [Scalar.sint 0, Scalar.sstr ""]))) :=
  ⟨⟨by decide,
    (truthiness_substitution [PyVal.int 1] _ (by decide)).1 _ rfl (PyVal.int 0),
    (truthiness_substitution [PyVal.int 1] _ (by decide)).1 _ rfl (PyVal.int 7)⟩,
   ⟨by decide,
    (truthiness_substitution [PyVal.tuple [Scalar.sint 1, Scalar.sstr "a"]] _
        (by decide)).2 _ rfl [Scalar.snone, Scalar.sstr "b"] (by decide)⟩⟩

/-- Claim C5: for the empty input sequence, get_type_converter returns
default_converter, which maps every input value to None. -/
theorem empty_input_default :
    get_type_converter [] = some Conv.dflt ∧
    ∀ x : PyVal, applyConv Conv.dflt x = some PyVal.none :=
  ⟨rfl, fun _ => rfl⟩

theorem updateEV_length : ∀ (xs ev : List Scalar) (i : Nat) (ev2 : List Scalar),
    updateEV ev i xs = some ev2 → ev2.length = ev.length := by
  intro xs
  induction xs with
  | nil => intro ev i ev2 h; simp [updateEV] at h; simp [h]
  | cons x xs ih =>
      intro ev i ev2 h
      by_cases hx : x = Scalar.snone
      · rw [updateEV, if_pos hx] at h
        exact ih ev (i + 1) ev2 h
      · rw [updateEV, if_neg hx] at h
        cases he : ev[i]? with
        | none => rw [he] at h; cases h
        | some e =>
            rw [he] at h
            have := ih _ (i + 1) ev2 h
            by_cases hes : e = Scalar.snone
            · simpa [hes, List.length_set] using this
            · simpa [hes] using this

theorem buildEV_length : ∀ (rest : List PyVal) (ev ev2 : List Scalar),
    buildEV ev rest = some ev2 → ev2.length = ev.length := by
  intro rest
  induction rest with
  | nil => intro ev ev2 h; simp [buildEV] at h; simp [h]
  | cons t rest ih =>
      intro ev ev2 h
      rw [buildEV] at h
      cases hte : tupleElems t with
      | none => simp [hte] at h
      | some elems =>
          simp only [hte] at h
          cases hup : updateEV ev 0 elems with
          | none => simp [hup] at h
          | some ev1 =>
              simp only [hup] at h
              have h1 := updateEV_length elems ev 0 ev1 hup
              by_cases hall : ev1.all (fun v => decide (v ≠ Scalar.snone)) = true
              · rw [if_pos hall] at h
                cases h
                exact h1
              · rw [if_neg hall] at h
                exact (ih ev1 ev2 h).trans h1

/-- Claim C10, counterexample.  The output arity does not hold regardless
of the arities of later tuples: when a later tuple is longer than the
first and has a non-null entry beyond the first tuple's arity, building
the transform raises IndexError at empty_values i, so get_type_converter
returns no transform at all for the sequence (1,), (2, 3). -/
theorem tuple_arity_build_cex :
    get_type_converter
        [PyVal.tuple [Scalar.sint 1], PyVal.tuple [Scalar.sint 2, Scalar.sint 3]] =
      Option.none := by
  decide

/-- Claim C10, amended: whenever get_type_converter, given a sequence
whose first element is a tuple of arity k, successfully returns a
transform (building can raise IndexError when a later tuple has a
non-null entry at a position at or beyond k), the captured empty-value
vector has length k, and the transform maps any input tuple with at
least k entries to a tuple of exactly k entries, discarding entries at
positions k and beyond. -/
theorem tuple_arity_truncation (fs : List Scalar) (rest : List PyVal)
    (ev : List Scalar)
    (h : get_type_converter (PyVal.tuple fs :: rest) = some (Conv.tuples ev)) :
    ev.length = fs.length ∧
    ∀ tup : List Scalar, fs.length ≤ tup.length →
      applyConv (Conv.tuples ev) (PyVal.tuple tup) =
        some (PyVal.tuple (List.zipWith pyOrS tup ev)) ∧
      (List.zipWith pyOrS tup ev).length = fs.length := by
  have hb : buildEV (fs.map Scalar.getEmpty) rest = some ev := by
    simp only [get_type_converter, Option.map_eq_some'] at h
    obtain ⟨ev', hev', heq⟩ := h
    cases heq
    exact hev'
  have hlen : ev.length = fs.length := by
    simpa using buildEV_length rest (fs.map Scalar.getEmpty) ev hb
  refine ⟨hlen, ?_⟩
  intro tup htup
  have hz := convertEntries_zip ev tup 0 (by simp [hlen]; omega)
  constructor
  · simp only [applyConv, hz, List.drop_zero, Option.map_some']
  · rw [List.length_zipWith, hlen]
    omega

/-- Claim C10 witness: the amended theorem applied to the one-tuple
sequence (1, None) and the arity-3 input tuple (5, 6, 7), whose output
keeps exactly the first two entries. -/
theorem tuple_arity_truncation_witness :
    (get_type_converter [PyVal.tuple [Scalar.sint 1, Scalar.snone]] =
      some (Conv.tuples [Scalar.sint 0, Scalar.snone])) ∧
    ([Scalar.sint 1, Scalar.snone] : List Scalar).length ≤
      ([Scalar.sint 5, Scalar.sint 6, Scalar.sint 7] : List Scalar).length ∧
    (applyConv (Conv.tuples [Scalar.sint 0, Scalar.snone])
        (PyVal.tuple [Scalar.sint 5, Scalar.sint 6, Scalar.sint 7]) =
      some (PyVal.tuple
        (List.zipWith pyOrS [Scalar.sint 5, Scalar.sint 6, Scalar.sint 7]
          [Scalar.sint 0, Scalar.snone])) ∧
     (List.zipWith pyOrS [Scalar.sint 5, Scalar.sint 6, Scalar.sint 7]
        [Scalar.sint 0, Scalar.snone]).length =
       ([Scalar.sint 1, Scalar.snone] : List Scalar).length) :=
  ⟨by decide, by decide,
    (tuple_arity_truncation [Scalar.sint 1, Scalar.snone] [] [Scalar.sint 0, Scalar.snone]
      (by decide)).2 [Scalar.sint 5, Scalar.sint 6, Scalar.sint 7] (by decide)⟩

/-- The values observed at position i across a sequence of items:
entries of iterable items that have a position i.  For a sequence of
tuples of arity above i this is the i-th projection. -/
def column (items : List PyVal) (i : Nat) : List Scalar :=
  items.filterMap (fun t => (tupleElems t).bind (fun xs => xs[i]?))

/-- One inner-loop step on a slot of the empty-value vector: a slot that
already holds a value keeps it, a None slot is seeded with the zero-value
of a non-None item and stays None on a None item. -/
def stepS (e x : Scalar) : Scalar :=
  if e = Scalar.snone then
    (if x = Scalar.snone then Scalar.snone else Scalar.zero x)
  else e

/-- Folding a whole column into a slot: a non-None slot is kept, a None
slot becomes the zero-value of the first non-None value of the column,
or stays None when there is none. -/
def fillS (e : Scalar) (col : List Scalar) : Scalar :=
  if e = Scalar.snone then
    match col.find? (fun v => decide (v ≠ Scalar.snone)) with
    | some v => Scalar.zero v
    | Option.none => Scalar.snone
  else e

/-- The zero-value the spec predicts at position i: the zero-value of the
first non-null value observed at that position, or None when the whole
column is null. -/
def colZero (items : List PyVal) (i : Nat) : Scalar :=
  fillS Scalar.snone (column items i)

theorem fillS_of_ne {e : Scalar} (h : e ≠ Scalar.snone) (col : List Scalar) :
    fillS e col = e := by
  simp [fillS, h]

theorem fillS_nil (e : Scalar) : fillS e [] = e := by
  by_cases h : e = Scalar.snone <;> simp [fillS, h, List.find?]

theorem fillS_cons (e x : Scalar) (col : List Scalar) :
    fillS e (x :: col) = fillS (stepS e x) col := by
  by_cases he : e = Scalar.snone
  · by_cases hx : x = Scalar.snone
    · simp [fillS, stepS, he, hx, List.find?]
    · have hp : (fun v => decide (v ≠ Scalar.snone)) x = true := by simpa using hx
      have hz := Scalar.zero_ne_snone hx
      simp [fillS, stepS, he, hx, List.find?, hp, hz]
  · simp [fillS, stepS, he]

theorem stepS_snone_right (e : Scalar) : stepS e Scalar.snone = e := by
  by_cases h : e = Scalar.snone <;> simp [stepS, h]

theorem stepS_snone_left (x : Scalar) : stepS Scalar.snone x = Scalar.getEmpty x := by
  simp [stepS, Scalar.getEmpty]

theorem column_cons_tuple (xs : List Scalar) (rest : List PyVal) (i : Nat)
    (x : Scalar) (hx : xs[i]? = some x) :
    column (PyVal.tuple xs :: rest) i = x :: column rest i := by
  simp [column, List.filterMap_cons, tupleElems, hx]

theorem updateEV_spec : ∀ (xs ev : List Scalar) (j : Nat),
    j + xs.length ≤ ev.length →
    ∃ ev2, updateEV ev j xs = some ev2 ∧ ev2.length = ev.length ∧
      (∀ i, i < j → ev2[i]? = ev[i]?) ∧
      (∀ d x, d < xs.length → xs[d]? = some x →
        ev2[j + d]? = (ev[j + d]?).map (fun e => stepS e x)) := by
  intro xs
  induction xs with
  | nil =>
      intro ev j _
      exact ⟨ev, by simp [updateEV], rfl, fun i _ => rfl, fun d x hd => by simp at hd⟩
  | cons x xs ih =>
      intro ev j hj
      have hjlt : j < ev.length := by simp at hj; omega
      by_cases hx : x = Scalar.snone
      · obtain ⟨ev2, hrun, hlen, hlt, hd⟩ := ih ev (j + 1) (by simp at hj ⊢; omega)
        refine ⟨ev2, by rw [updateEV, if_pos hx]; exact hrun, hlen, ?_, ?_⟩
        · intro i hi; exact hlt i (Nat.lt_succ_of_lt hi)
        · intro d y hdlt hy
          cases d with
          | zero =>
              have hy0 : x = y := by
                simpa using hy
              subst hy0
              have := hlt j (Nat.lt_succ_self j)
              rw [Nat.add_zero, this]
              cases ev[j]? <;> simp [hx, stepS_snone_right]
          | succ d =>
              have harith : j + (d + 1) = (j + 1) + d := by omega
              rw [harith]
              exact hd d y (by simpa using hdlt) (by simpa using hy)
      · obtain ⟨e, he⟩ : ∃ e, ev[j]? = some e :=
          ⟨ev[j], List.getElem?_eq_getElem hjlt⟩
        have hlen' : (if e = Scalar.snone then ev.set j (Scalar.zero x) else ev).length
            = ev.length := by
          by_cases hes : e = Scalar.snone <;> simp [hes, List.length_set]
        obtain ⟨ev2, hrun, hlen, hlt, hd⟩ :=
          ih (if e = Scalar.snone then ev.set j (Scalar.zero x) else ev) (j + 1)
            (by simp at hj ⊢; omega)
        have hj' : (if e = Scalar.snone then ev.set j (Scalar.zero x) else ev)[j]? =
            some (stepS e x) := by
          by_cases hes : e = Scalar.snone
          · simp [hes, List.getElem?_set_eq_of_lt _ hjlt, stepS, hx]
          · simp [hes, he, stepS]
        have hne : ∀ i, i ≠ j →
            (if e = Scalar.snone then ev.set j (Scalar.zero x) else ev)[i]? = ev[i]? := by
          intro i hi
          by_cases hes : e = Scalar.snone
          · simp [hes, List.getElem?_set_ne (Ne.symm hi)]
          · simp [hes]
        refine ⟨ev2, ?_, hlen.trans hlen', ?_, ?_⟩
        · rw [updateEV, if_neg hx, he]
          exact hrun
        · intro i hi
          exact (hlt i (Nat.lt_succ_of_lt hi)).trans (hne i (Nat.ne_of_lt hi))
        · intro d y hdlt hy
          cases d with
          | zero =>
              have hy0 : x = y := by simpa using hy
              subst hy0
              have := hlt j (Nat.lt_succ_self j)
              rw [Nat.add_zero, this, hj', he]
              rfl
          | succ d =>
              have harith : j + (d + 1) = (j + 1) + d := by omega
              rw [harith]
              have := hd d y (by simpa using hdlt) (by simpa using hy)
              rw [this, hne ((j + 1) + d) (by omega)]

theorem buildEV_spec : ∀ (rest : List PyVal) (ev : List Scalar) (k : Nat),
    ev.length = k →
    (∀ t ∈ rest, ∃ xs : List Scalar, t = PyVal.tuple xs ∧ xs.length = k) →
    ∃ ev2, buildEV ev rest = some ev2 ∧ ev2.length = k ∧
      ∀ i, i < k → ev2[i]? = (ev[i]?).map (fun e => fillS e (column rest i)) := by
  intro rest
  induction rest with
  | nil =>
      intro ev k hk _
      refine ⟨ev, by simp [buildEV], hk, ?_⟩
      intro i _
      have hcol : column [] i = [] := rfl
      rw [hcol]
      cases ev[i]? <;> simp [fillS_nil]
  | cons t rest ih =>
      intro ev k hk hall
      obtain ⟨xs, rfl, hxs⟩ := hall t (by simp)
      obtain ⟨ev1, hrun, hlen1, _, hd⟩ := updateEV_spec xs ev 0 (by omega)
      by_cases hall2 : ev1.all (fun v => decide (v ≠ Scalar.snone)) = true
      · refine ⟨ev1, ?_, hlen1.trans hk, ?_⟩
        · rw [buildEV]
          simp only [tupleElems, hrun]
          rw [if_pos hall2]
        · intro i hi
          obtain ⟨xi, hxi⟩ : ∃ xi, xs[i]? = some xi :=
            ⟨_, List.getElem?_eq_getElem (show i < xs.length by omega)⟩
          obtain ⟨e, he⟩ : ∃ e, ev[i]? = some e :=
            ⟨_, List.getElem?_eq_getElem (show i < ev.length by omega)⟩
          have hse : ev1[i]? = some (stepS e xi) := by
            simpa [he] using hd i xi (by omega) hxi
          have hcol : column (PyVal.tuple xs :: rest) i = xi :: column rest i :=
            column_cons_tuple xs rest i xi hxi
          have hsne : stepS e xi ≠ Scalar.snone := by
            have hmem : stepS e xi ∈ ev1 := List.getElem?_mem hse
            have := (List.all_eq_true.mp hall2) _ hmem
            simpa using this
          rw [hse, he, hcol]
          simp [fillS_cons, fillS_of_ne hsne]
      · obtain ⟨ev2, hrun2, hlen2, hfill⟩ := ih ev1 k (hlen1.trans hk)
          (fun u hu => hall u (by simp [hu]))
        refine ⟨ev2, ?_, hlen2, ?_⟩
        · rw [buildEV]
          simp only [tupleElems, hrun]
          rw [if_neg hall2]
          exact hrun2
        · intro i hi
          obtain ⟨xi, hxi⟩ : ∃ xi, xs[i]? = some xi :=
            ⟨_, List.getElem?_eq_getElem (show i < xs.length by omega)⟩
          have hstep : ev1[i]? = (ev[i]?).map (fun e => stepS e xi) := by
            simpa using hd i xi (by omega) hxi
          have hcol : column (PyVal.tuple xs :: rest) i = xi :: column rest i :=
            column_cons_tuple xs rest i xi hxi
          rw [hfill i hi, hstep, hcol, Option.map_map]
          cases ev[i]? with
          | none => rfl
          | some e => simp [Function.comp, fillS_cons]

/-- Claim C4: the normalizer never fabricates a default without having
observed a type.  For an all-null scalar sequence the empty value stays
None and null inputs map to None.  For a sequence of arity-k tuples,
every slot of the empty-value vector captured by the returned transform
equals colZero, the zero-value of the first non-null value observed at
that position (type(first non-null)()), and a position whose column is
entirely null keeps None as its slot, so the transform substitutes None
there rather than a synthesized zero-value. -/
theorem never_invents_type :
    (∀ rest : List PyVal, (∀ v ∈ rest, v = PyVal.none) →
      get_type_converter (PyVal.none :: rest) = some (Conv.scalar PyVal.none) ∧
      applyConv (Conv.scalar PyVal.none) PyVal.none = some PyVal.none) ∧
    (∀ (k : Nat) (fs : List Scalar) (rest : List PyVal),
      fs.length = k →
      (∀ t ∈ rest, ∃ xs : List Scalar, t = PyVal.tuple xs ∧ xs.length = k) →
      ∃ ev, get_type_converter (PyVal.tuple fs :: rest) = some (Conv.tuples ev) ∧
        ev.length = k ∧
        (∀ i, i < k → ev[i]? = some (colZero (PyVal.tuple fs :: rest) i)) ∧
        (∀ i, i < k →
          (∀ v ∈ column (PyVal.tuple fs :: rest) i, v = Scalar.snone) →
          ev[i]? = some Scalar.snone) ∧
        (∀ tup : List Scalar, tup.length = k →
          applyConv (Conv.tuples ev) (PyVal.tuple tup) =
            some (PyVal.tuple (List.zipWith pyOrS tup ev)))) := by
  constructor
  · intro rest hrest
    have hfind : rest.find? (fun v => decide (v ≠ PyVal.none)) = Option.none := by
      rw [List.find?_eq_none]
      intro x hx
      simp [hrest x hx]
    constructor
    · rw [gtc_scalar_mode PyVal.none rest rfl]
      simp only [scalarEmpty, PyVal.getEmpty, if_pos rfl]
      rw [hfind]
      rfl
    · simp [applyConv, pyOr, PyVal.truthy]
  · intro k fs rest hfs hall
    obtain ⟨ev, hrun, hlen, hfill⟩ :=
      buildEV_spec rest (fs.map Scalar.getEmpty) k (by simp [hfs]) hall
    have hslot : ∀ i, i < k → ev[i]? = some (colZero (PyVal.tuple fs :: rest) i) := by
      intro i hi
      obtain ⟨fi, hfi⟩ : ∃ fi, fs[i]? = some fi :=
        ⟨_, List.getElem?_eq_getElem (show i < fs.length by omega)⟩
      have hev0 : (fs.map Scalar.getEmpty)[i]? = some (Scalar.getEmpty fi) := by
        rw [List.getElem?_map, hfi]
        rfl
      have hcol : column (PyVal.tuple fs :: rest) i = fi :: column rest i :=
        column_cons_tuple fs rest i fi hfi
      rw [hfill i hi, hev0]
      simp only [Option.map_some']
      rw [colZero, hcol, fillS_cons, stepS_snone_left]
    refine ⟨ev, ?_, hlen, hslot, ?_, ?_⟩
    · simp only [get_type_converter, hrun, Option.map_some']
    · intro i hi hnull
      rw [hslot i hi]
      have hfind : (column (PyVal.tuple fs :: rest) i).find?
          (fun v => decide (v ≠ Scalar.snone)) = Option.none := by
        rw [List.find?_eq_none]
        intro x hx
        simp [hnull x hx]
      rw [colZero, fillS, if_pos rfl, hfind]
    · intro tup htup
      have hz := convertEntries_zip ev tup 0 (by omega)
      simp only [applyConv, hz, List.drop_zero, Option.map_some']

/-- Claim C4 witness: the theorem applied to the all-null scalar sequence
None, None and to the tuple sequence (1, None), (None, None), where the
second position never observes a non-null value and therefore keeps None
as its empty value. -/
theorem never_invents_type_witness :
    ((∀ v ∈ [PyVal.none], v = PyVal.none) ∧
      (get_type_converter (PyVal.none :: [PyVal.none]) =
        some (Conv.scalar PyVal.none) ∧
      applyConv (Conv.scalar PyVal.none) PyVal.none = some PyVal.none)) ∧
    (([Scalar.sint 1, Scalar.snone] : List Scalar).length = 2 ∧
      (∀ t ∈ [PyVal.tuple [Scalar.snone, Scalar.snone]],
        ∃ xs : List Scalar, t = PyVal.tuple xs ∧ xs.length = 2) ∧
      ∃ ev, get_type_converter
          (PyVal.tuple [Scalar.sint 1, Scalar.snone] ::
            [PyVal.tuple [Scalar.snone, Scalar.snone]]) =
          some (Conv.tuples ev) ∧
        ev.length = 2 ∧
        (∀ i, i < 2 → ev[i]? =
          some (colZero (PyVal.tuple [Scalar.sint 1, Scalar.snone] ::
            [PyVal.tuple [Scalar.snone, Scalar.snone]]) i)) ∧
        (∀ i, i < 2 →
          (∀ v ∈ column (PyVal.tuple [Scalar.sint 1, Scalar.snone] ::
            [PyVal.tuple [Scalar.snone, Scalar.snone]]) i, v = Scalar.snone) →
          ev[i]? = some Scalar.snone) ∧
        (∀ tup : List Scalar, tup.length = 2 →
          applyConv (Conv.tuples ev) (PyVal.tuple tup) =
            some (PyVal.tuple (List.zipWith pyOrS tup ev)))) :=
  ⟨⟨by decide, never_invents_type.1 [PyVal.none] (by decide)⟩,
   ⟨by decide,
    ⟨by
      intro t ht
      simp only [List.mem_singleton] at ht
      exact ⟨[Scalar.snone, Scalar.snone], ht, rfl⟩,
     never_invents_type.2 2 [Scalar.sint 1, Scalar.snone]
       [PyVal.tuple [Scalar.snone, Scalar.snone]] (by decide)
       (by
        intro t ht
        simp only [List.mem_singleton] at ht
        exact ⟨[Scalar.snone, Scalar.snone], ht, rfl⟩)⟩⟩⟩

/-- Python str.strip with no argument removes these whitespace
characters from both ends (ASCII subset). -/
def isPySpace (c : Char) : Bool :=
  c = ' ' ∨ c = Char.ofNat 9 ∨ c = Char.ofNat 10 ∨ c = Char.ofNat 11 ∨
    c = Char.ofNat 12 ∨ c = Char.ofNat 13

/-- Strip whitespace from both ends of a character list. -/
def stripChars (cs : List Char) : List Char :=
  ((cs.dropWhile isPySpace).reverse.dropWhile isPySpace).reverse

/-- line.strip() (utils.py line 144). -/
def pyStrip (s : String) : String :=
  String.mk (stripChars s.data)

theorem head?_dropWhile_not {p : Char → Bool} :
    ∀ (l : List Char) (c : Char), (l.dropWhile p).head? = some c → p c = false := by
  intro l
  induction l with
  | nil => intro c h; simp [List.dropWhile] at h
  | cons x xs ih =>
      intro c h
      by_cases hx : p x = true
      · rw [List.dropWhile_cons, if_pos hx] at h
        exact ih c h
      · rw [List.dropWhile_cons, if_neg hx] at h
        simp at h
        subst h
        simpa using hx

theorem stripChars_eq_nil_iff (cs : List Char) :
    stripChars cs = [] ↔ ∀ c ∈ cs, isPySpace c = true := by
  constructor
  · intro h c hc
    have hB : (cs.dropWhile isPySpace).reverse.dropWhile isPySpace = [] := by
      have h2 := congrArg List.reverse h
      simpa [stripChars] using h2
    have hA : ∀ x ∈ cs.dropWhile isPySpace, isPySpace x = true := by
      intro x hx
      exact List.dropWhile_eq_nil_iff.mp hB x (List.mem_reverse.mpr hx)
    have hnil : cs.dropWhile isPySpace = [] := by
      cases hd : cs.dropWhile isPySpace with
      | nil => rfl
      | cons a as =>
          have hpa : isPySpace a = false :=
            head?_dropWhile_not cs a (by rw [hd]; rfl)
          have hta : isPySpace a = true := hA a (by rw [hd]; simp)
          rw [hta] at hpa
          cases hpa
    exact List.dropWhile_eq_nil_iff.mp hnil c hc
  · intro h
    have h1 : cs.dropWhile isPySpace = [] :=
      List.dropWhile_eq_nil_iff.mpr h
    simp [stripChars, h1, List.dropWhile]

theorem pyStrip_empty_iff (s : String) :
    pyStrip s = "" ↔ ∀ c ∈ s.data, isPySpace c = true := by
  constructor
  · intro h
    have h2 : stripChars s.data = [] := by
      have h1 := congrArg String.data h
      simpa [pyStrip] using h1
    exact (stripChars_eq_nil_iff _).mp h2
  · intro h
    rw [pyStrip, (stripChars_eq_nil_iff _).mpr h]

theorem pyStrip_pyStrip_empty_iff (s : String) :
    pyStrip (pyStrip s) = "" ↔ pyStrip s = "" := by
  constructor
  · intro h
    have hall : ∀ c ∈ (pyStrip s).data, isPySpace c = true :=
      (pyStrip_empty_iff _).mp h
    by_contra hne
    have hBne : stripChars s.data ≠ [] := by
      intro hB
      exact hne (by rw [pyStrip, hB])
    cases hd : (s.data.dropWhile isPySpace).reverse.dropWhile isPySpace with
    | nil => exact hBne (by simp [stripChars, hd])
    | cons b bs =>
        have hpb : isPySpace b = false :=
          head?_dropWhile_not _ b (by rw [hd]; rfl)
        have hmem : b ∈ stripChars s.data := by
          rw [stripChars, hd]
          simp
        have htb : isPySpace b = true := hall b hmem
        rw [htb] at hpb
        cases hpb
  · intro h
    rw [h]
    rfl

/-- stream_json_lines (utils.py lines 141-146), with json.loads passed in
as the parameter loads, run to completion: the pair of the list of
values the generator yields and the exception, if any, that stops it.
Each line is stripped; a line that is empty after stripping is skipped;
otherwise the stripped line is parsed and its value yielded, and a parse
failure propagates immediately. -/
def stream_json_lines {ε α : Type} (loads : String → Except ε α) :
    List String → List α × Option ε
  | [] => ([], Option.none)
  | l :: rest =>
    if pyStrip (pyStrip l) ≠ "" then
      match loads (pyStrip l) with
      | Except.error e => ([], some e)
      | Except.ok v =>
          (v :: (stream_json_lines loads rest).1, (stream_json_lines loads rest).2)
    else stream_json_lines loads rest

/-- The observable outcome of stream_events: a jsonl generator run
(values yielded, then possibly an exception), a whole-document parse, or
the NotImplementedError raised for an unsupported format before any
record is produced. -/
inductive StreamOut (ε α : Type) where
  | jlines (records : List α) (err : Option ε)
  | doc (d : Except ε α)
  | unsupported (msg : String)

/-- file_format.lstrip "." (utils.py line 199): remove every leading
dot. -/
def lstripDots (s : String) : String :=
  String.mk (s.data.dropWhile (fun c => decide (c = '.')))

/-- stream_events (utils.py lines 193-206), with json.load passed in as
loadDoc and json.loads as loads; the file object is its list of lines,
and whole-document mode parses the joined content.  After stripping
leading dots from the format, jsonl selects line streaming, json selects
a whole-document parse, and anything else raises NotImplementedError
with a message naming the unresolved token. -/
def stream_events {ε α : Type} (loadDoc loads : String → Except ε α)
    (flines : List String) (file_format : String) : StreamOut ε α :=
  if lstripDots file_format = "jsonl" then
    StreamOut.jlines (stream_json_lines loads flines).1
      (stream_json_lines loads flines).2
  else if lstripDots file_format = "json" then
    StreamOut.doc (loadDoc (String.intercalate "\n" flines))
  else StreamOut.unsupported ("Unexpected format: " ++ lstripDots file_format)

/-- The index of the last occurrence of a character in a list. -/
def lastIdxOf (c : Char) : List Char → Option Nat
  | [] => Option.none
  | x :: xs =>
    match lastIdxOf c xs with
    | some i => some (i + 1)
    | Option.none => if x = c then some 0 else Option.none

/-- os.path.splitext: split off the last extension of the path.  The dot
must come after the last path separator, and a basename consisting only
of leading dots up to that dot (such as .gz alone) has no extension. -/
def splitext (p : String) : String × String :=
  let cs := p.data
  let b := match lastIdxOf '/' cs with
    | some s => s + 1
    | Option.none => 0
  match lastIdxOf '.' cs with
  | Option.none => (p, "")
  | some d =>
    if b ≤ d ∧ ((cs.drop b).take (d - b)).any (fun ch => decide (ch ≠ '.')) then
      (String.mk (cs.take d), String.mk (cs.drop d))
    else (p, "")

/-- The Python slice s with the last n characters removed. -/
def strDropRight (n : Nat) (s : String) : String :=
  String.mk (s.data.take (s.data.length - n))

/-- The format-resolution step of stream_file_events (utils.py lines
156-162): a falsy explicit format (absent or empty) is replaced by the
path's extension, with a .gz extension stripped once so the next inner
extension is used and .gz appended back; an explicit non-empty format is
used verbatim. -/
def resolveFileFormat (file_path : String) (file_format : Option String) : String :=
  let f := file_format.getD ""
  if f = "" then
    let e := (splitext file_path).2
    if e = ".gz" then (splitext (strDropRight 3 file_path)).2 ++ ".gz"
    else e
  else f

/-- The decompression dispatch of stream_file_events and
stream_stdin_events (utils.py lines 164-169 and 185-187): a format token
ending in .gz has the marker stripped and the source wrapped in a gzip
reader (recorded here as the Boolean). -/
def gzSplit (fmt : String) : String × Bool :=
  if ".gz".data.isSuffixOf fmt.data then (strDropRight 3 fmt, true)
  else (fmt, false)

/-- stream_file_events (utils.py lines 149-173): resolve the format from
the path and the optional explicit format, strip the compression marker,
and hand the text lines to stream_events.  Decompression transforms
bytes only, so the model receives the decoded text lines directly. -/
def stream_file_events {ε α : Type} (loadDoc loads : String → Except ε α)
    (file_path : String) (file_format : Option String)
    (flines : List String) : StreamOut ε α :=
  stream_events loadDoc loads flines
    (gzSplit (resolveFileFormat file_path file_format)).1

/-- The format default of stream_stdin_events (utils.py line 182):
file_format or jsonl. -/
def resolveStdinFormat (file_format : Option String) : String :=
  let f := file_format.getD ""
  if f = "" then "jsonl" else f

/-- The content token stream_events dispatches on for a file source,
together with whether gzip decompression is applied: resolve the format,
strip the compression marker, strip leading dots. -/
def resolvedFileToken (file_path : String) (file_format : Option String) :
    String × Bool :=
  (lstripDots (gzSplit (resolveFileFormat file_path file_format)).1,
    (gzSplit (resolveFileFormat file_path file_format)).2)

/-- The value a line contributes to a jsonl stream: none for a line that
is blank after stripping, otherwise the parse result of the stripped
line when it succeeds. -/
def lineVal {ε α : Type} (loads : String → Except ε α) (l : String) : Option α :=
  if pyStrip (pyStrip l) ≠ "" then (loads (pyStrip l)).toOption else Option.none

instance {ε α : Type} [DecidableEq ε] [DecidableEq α] : DecidableEq (Except ε α) := fun x y =>
  match x, y with
  | Except.error a, Except.error b =>
      if h : a = b then isTrue (by rw [h]) else isFalse (fun hc => h (by injection hc))
  | Except.ok a, Except.ok b =>
      if h : a = b then isTrue (by rw [h]) else isFalse (fun hc => h (by injection hc))
  | Except.error _, Except.ok _ => isFalse (fun hc => Except.noConfusion hc)
  | Except.ok _, Except.error _ => isFalse (fun hc => Except.noConfusion hc)

/-- Parse a non-empty string of decimal digits, accumulating the value;
any non-digit character fails the parse. -/
def miniParse : List Char → Option Nat → Option Nat
  | [], acc => acc
  | c :: cs, acc =>
      if '0' ≤ c ∧ c ≤ '9' then
        miniParse cs (some ((acc.getD 0) * 10 + (c.toNat - '0'.toNat)))
      else Option.none

/-- A concrete miniature stand-in for json.loads used to instantiate the
parametric stream theorems: it parses decimal natural numbers and
reports anything else as an error carrying the offending content (like
the real json.loads, the error is a function of the parsed string only). -/
def miniLoads (s : String) : Except String Nat :=
  match miniParse s.data Option.none with
  | some n => Except.ok n
  | Option.none => Except.error s

/-- A concrete miniature stand-in for json.dumps matching miniLoads. -/
def miniDumps (n : Nat) : String := toString n


theorem stream_json_lines_roundtrip {ε α : Type} (loads : String → Except ε α)
    (dumps : α → String) :
    ∀ (flines : List String) (vs : List α),
      (flines.map pyStrip).filter (fun s => decide (s ≠ "")) = vs.map dumps →
      (∀ v ∈ vs, loads (dumps v) = Except.ok v) →
      stream_json_lines loads flines = (vs, Option.none) := by
  intro flines
  induction flines with
  | nil =>
      intro vs hf _
      cases vs with
      | nil => rfl
      | cons v vs => simp at hf
  | cons l rest ih =>
      intro vs hf hinv
      by_cases hb : pyStrip l = ""
      · have hf2 : (rest.map pyStrip).filter (fun s => decide (s ≠ "")) =
            vs.map dumps := by
          simpa [List.filter_cons, hb] using hf
        have hcond : ¬ pyStrip (pyStrip l) ≠ "" :=
          not_not_intro ((pyStrip_pyStrip_empty_iff l).mpr hb)
        rw [stream_json_lines, if_neg hcond]
        exact ih vs hf2 hinv
      · have hf2 : pyStrip l :: (rest.map pyStrip).filter (fun s => decide (s ≠ "")) =
            vs.map dumps := by
          simpa [List.filter_cons, hb] using hf
        cases vs with
        | nil => simp at hf2
        | cons v vs =>
            simp only [List.map_cons] at hf2
            injection hf2 with h1 h2
            have hcond : pyStrip (pyStrip l) ≠ "" := by
              intro hc
              exact hb ((pyStrip_pyStrip_empty_iff l).mp hc)
            rw [stream_json_lines, if_pos hcond, h1, hinv v (by simp)]
            rw [ih vs h2 (fun u hu => hinv u (by simp [hu]))]

/-- Claim C6: round-trip through the stream decoder.  For any serializer
and parser pair that invert each other on the serialized values, a jsonl
stream whose non-blank lines are the serializations of the values vs, in
order and possibly interspersed with blank or whitespace-only lines,
decodes to exactly vs with no error; and a json stream holding one
document that parses to d decodes to exactly that document. -/
theorem roundtrip_stream {ε α : Type} (loadDoc loads : String → Except ε α)
    (dumps : α → String) (vs : List α) (flines : List String)
    (hf : (flines.map pyStrip).filter (fun s => decide (s ≠ "")) = vs.map dumps)
    (hinv : ∀ v ∈ vs, loads (dumps v) = Except.ok v)
    (doclines : List String) (d : α)
    (hd : loadDoc (String.intercalate "\n" doclines) = Except.ok d) :
    stream_events loadDoc loads flines "jsonl" = StreamOut.jlines vs Option.none ∧
    stream_events loadDoc loads doclines "json" = StreamOut.doc (Except.ok d) := by
  have hjl : lstripDots "jsonl" = "jsonl" := by decide
  have hj : lstripDots "json" = "json" := by decide
  constructor
  · rw [stream_events, hjl, if_pos rfl,
      stream_json_lines_roundtrip loads dumps flines vs hf hinv]
  · rw [stream_events, hj]
    have hne : ("json" : String) ≠ "jsonl" := by decide
    rw [if_neg hne, if_pos rfl, hd]

/-- Claim C6 witness: the theorem applied to the concrete jsonl stream
with lines 1, blank, 2 (with surrounding whitespace) and the json stream
holding the single document 7, using the miniature codec. -/
theorem roundtrip_stream_witness :
    (((["1", "", " 2 "].map pyStrip).filter (fun s => decide (s ≠ "")) =
        [1, 2].map miniDumps) ∧
      (∀ v ∈ [1, 2], miniLoads (miniDumps v) = Except.ok v) ∧
      miniLoads (String.intercalate "\n" ["7"]) = Except.ok 7) ∧
    (stream_events miniLoads miniLoads ["1", "", " 2 "] "jsonl" =
        StreamOut.jlines [1, 2] Option.none ∧
      stream_events miniLoads miniLoads ["7"] "json" =
        StreamOut.doc (Except.ok 7)) :=
  ⟨⟨by decide, by decide, by decide⟩,
   roundtrip_stream miniLoads miniLoads miniDumps [1, 2] ["1", "", " 2 "]
     (by decide) (by decide) ["7"] 7 (by decide)⟩

/-- Claim C7: format resolution.  With no explicit format,
events.jsonl resolves to the content token jsonl without decompression,
events.jsonl.gz to the token jsonl with gzip decompression, and
events.json to the token json; an explicit non-empty format argument is
used verbatim, overriding extension-based inference; a stdin stream
with no explicit format defaults to jsonl. -/
theorem format_resolution :
    resolvedFileToken "events.jsonl" Option.none = ("jsonl", false) ∧
    resolvedFileToken "events.jsonl.gz" Option.none = ("jsonl", true) ∧
    resolvedFileToken "events.json" Option.none = ("json", false) ∧
    (∀ (p f : String), f ≠ "" → resolveFileFormat p (some f) = f) ∧
    resolveStdinFormat Option.none = "jsonl" := by
  refine ⟨by decide, by decide, by decide, ?_, by decide⟩
  intro p f hf
  simp [resolveFileFormat, hf]

/-- Claim C7 witness: the explicit-format clause of the theorem applied
to the path events.jsonl with the explicit format xml. -/
theorem format_resolution_witness :
    ("xml" : String) ≠ "" ∧
    resolveFileFormat "events.jsonl" (some "xml") = "xml" :=
  ⟨by decide, format_resolution.2.2.2.1 "events.jsonl" "xml" (by decide)⟩

/-- Claim C8: for every resolved format token that, after stripping the
.gz compression marker and all leading dots, is neither json nor jsonl,
the stream decoder returns the unsupported-format outcome whose message
names the unresolved token; that outcome carries no records, so the
failure precedes any record. -/
theorem unsupported_format_error {ε α : Type} (loadDoc loads : String → Except ε α)
    (file_path : String) (file_format : Option String) (flines : List String)
    (t : String) (ht : t = (resolvedFileToken file_path file_format).1)
    (h1 : t ≠ "json") (h2 : t ≠ "jsonl") :
    stream_file_events loadDoc loads file_path file_format flines =
      StreamOut.unsupported ("Unexpected format: " ++ t) := by
  have ht2 : lstripDots (gzSplit (resolveFileFormat file_path file_format)).1 = t :=
    ht.symm
  rw [stream_file_events, stream_events, ht2, if_neg h2, if_neg h1]

/-- Claim C8 witness: the theorem applied to the path x.xml with no
explicit format, whose resolved token xml is unsupported. -/
theorem unsupported_format_error_witness :
    (("xml" : String) = (resolvedFileToken "x.xml" Option.none).1 ∧
      ("xml" : String) ≠ "json" ∧ ("xml" : String) ≠ "jsonl") ∧
    stream_file_events miniLoads miniLoads "x.xml" Option.none ["1"] =
      StreamOut.unsupported ("Unexpected format: " ++ "xml") :=
  ⟨⟨by decide, by decide, by decide⟩,
   unsupported_format_error miniLoads miniLoads "x.xml" Option.none ["1"] "xml"
     (by decide) (by decide) (by decide)⟩

/-- Claim C9, counterexample.  stream_json_lines keeps no line counter:
the error it raises is exactly the parse error of the offending line's
content, so the same malformed content at stream line 1 and at stream
line 3 raises the identical error value; the error therefore cannot
identify the offending line's position in the stream. -/
theorem jsonl_error_line_cex :
    (stream_json_lines miniLoads ["nope"]).2 = some "nope" ∧
    (stream_json_lines miniLoads ["1", "2", "nope"]).2 = some "nope" ∧
    (stream_json_lines miniLoads ["1", "2", "nope"]).1 = [1, 2] ∧
    (stream_json_lines miniLoads ["nope"]).2 =
      (stream_json_lines miniLoads ["1", "2", "nope"]).2 := by
  refine ⟨by decide, by decide, by decide, by decide⟩

/-- Claim C9, amended: for a jsonl input whose first malformed non-blank
line sits at 0-based index idx (1-based position idx + 1), the stream
yields exactly the parsed values of the well-formed non-blank lines
before it, then raises the decode error produced by the parser on that
line's content alone - an error that does not carry the stream's line
number - and yields no record for that line or any later line. -/
theorem jsonl_error_after_prefix {ε α : Type} (loads : String → Except ε α) :
    ∀ (flines : List String) (idx : Nat) (bad : String) (e : ε),
      (∀ l ∈ flines.take idx,
        pyStrip (pyStrip l) = "" ∨ ∃ a, loads (pyStrip l) = Except.ok a) →
      flines[idx]? = some bad →
      pyStrip (pyStrip bad) ≠ "" →
      loads (pyStrip bad) = Except.error e →
      stream_json_lines loads flines =
        ((flines.take idx).filterMap (lineVal loads), some e) := by
  intro flines
  induction flines with
  | nil =>
      intro idx bad e _ hbad _ _
      simp at hbad
  | cons l rest ih =>
      intro idx bad e hgood hbad hnb herr
      cases idx with
      | zero =>
          have hlb : l = bad := by simpa using hbad
          subst hlb
          rw [stream_json_lines, if_pos hnb, herr]
          simp
      | succ n =>
          have hbad2 : rest[n]? = some bad := by simpa using hbad
          have hl := hgood l (by simp)
          have hgood2 : ∀ u ∈ rest.take n,
              pyStrip (pyStrip u) = "" ∨ ∃ a, loads (pyStrip u) = Except.ok a := by
            intro u hu
            exact hgood u (by rw [List.take_succ_cons]; exact List.mem_cons_of_mem l hu)
          have hrec := ih n bad e hgood2 hbad2 hnb herr
          by_cases hblank : pyStrip (pyStrip l) = ""
          · rw [stream_json_lines, if_neg (not_not_intro hblank), hrec,
              List.take_succ_cons, List.filterMap_cons]
            have hlv : lineVal loads l = Option.none := by
              rw [lineVal, if_neg (not_not_intro hblank)]
            rw [hlv]
          · obtain ⟨a, ha⟩ := hl.resolve_left hblank
            rw [stream_json_lines, if_pos hblank, ha, hrec,
              List.take_succ_cons, List.filterMap_cons]
            have hlv : lineVal loads l = some a := by
              rw [lineVal, if_pos hblank, ha]
              rfl
            rw [hlv]

/-- Claim C9 witness: the amended theorem applied to the stream with
lines 1, then the malformed line x?, then 3: the stream yields only the
value 1 and then raises the parse error of the content x?. -/
theorem jsonl_error_after_prefix_witness :
    ((∀ l ∈ ["1", "x?", "3"].take 1,
        pyStrip (pyStrip l) = "" ∨ ∃ a, miniLoads (pyStrip l) = Except.ok a) ∧
      (["1", "x?", "3"] : List String)[1]? = some "x?" ∧
      pyStrip (pyStrip "x?") ≠ "" ∧
      miniLoads (pyStrip "x?") = Except.error "x?") ∧
    stream_json_lines miniLoads ["1", "x?", "3"] =
      ((["1", "x?", "3"].take 1).filterMap (lineVal miniLoads), some "x?") :=
  ⟨⟨by
      intro l hl
      simp only [List.take_succ_cons, List.take_zero, List.mem_singleton] at hl
      subst hl
      exact Or.inr ⟨1, by decide⟩,
    by decide, by decide, by decide⟩,
   jsonl_error_after_prefix miniLoads ["1", "x?", "3"] 1 "x?" "x?"
     (by
      intro l hl
      simp only [List.take_succ_cons, List.take_zero, List.mem_singleton] at hl
      subst hl
      exact Or.inr ⟨1, by decide⟩)
     (by decide) (by decide) (by decide)⟩
